import Mathlib

/-!
Shallow embedding of fabio's `main.go` (the dynamic-routing entry point):
the reconciliation loop `watchBackend`, the registration loop `initBackend`,
the diff logger `logRoutes` and the proxy lookup closures from
`newHTTPProxy` / `newTCPSNIProxy`.  External packages (`route`, `registry`,
`exit`, the go-diff library) are taken as parameters of the embedded
functions; where a claim depends on code of the repository that is not in
`src/`, the definition is modelled from the spec and says so.
-/

namespace Fabio

/-- Go strings are modelled as lists of characters. -/
abbrev GoStr := List Char

/-- Whitespace predicate used by Go's `strings.TrimSpace` (ASCII part of `unicode.IsSpace`). -/
def goIsSpace (c : Char) : Bool :=
  c == ' ' || c == '\t' || c == '\n' || c == '\r' || c == '\x0b' || c == '\x0c'

/-- Go's `strings.TrimSpace`: drop whitespace from both ends. -/
def goTrimSpace (s : GoStr) : GoStr :=
  ((s.dropWhile goIsSpace).reverse.dropWhile goIsSpace).reverse

/-- Go's `strings.Replace(s, string(old), new, -1)` for a one-character pattern
`old` (the source only ever replaces the pattern `"\n"`). -/
def goReplaceChar (old : Char) (new : GoStr) : GoStr → GoStr
  | [] => []
  | c :: rest => (if c = old then new else [c]) ++ goReplaceChar old new rest

/-- Split a string into its lines at `'\n'` (observation function used to state
properties about the diff output; `splitLines s` always has at least one element). -/
def splitLines : GoStr → List GoStr
  | [] => [[]]
  | c :: rest =>
    if c = '\n' then [] :: splitLines rest
    else
      match splitLines rest with
      | [] => [[c]]
      | l :: ls => (c :: l) :: ls

/-- The kind of a fragment produced by the external diff library
(`diffmatchpatch.Diff.Type`). -/
inductive DiffKind : Type
  | delete
  | insert
  | equal
deriving DecidableEq, Repr

/-- One fragment produced by the external diff library (`diffmatchpatch.Diff`). -/
structure Diff : Type where
  kind : DiffKind
  text : GoStr
deriving DecidableEq, Repr

/-- Body of the loop inside `fmtDiff` in `logRoutes` (main.go): a blank-after-trim
fragment is skipped, a delete fragment is appended as lines prefixed with
`"- "`, an insert fragment as lines prefixed with `"+ "`, and an equal
fragment is skipped (no case in the switch). -/
def fmtDiffStep (b : GoStr) (d : Diff) : GoStr :=
  let t := goTrimSpace d.text
  if t = [] then b
  else
    match d.kind with
    | .delete => b ++ ('-' :: ' ' :: goReplaceChar '\n' ['\n', '-', ' '] t)
    | .insert => b ++ ('+' :: ' ' :: goReplaceChar '\n' ['\n', '+', ' '] t)
    | .equal => b

/-- The `fmtDiff` closure of `logRoutes` (main.go): fold the loop body over the
fragment list starting from an empty buffer. -/
def fmtDiff (diffs : List Diff) : GoStr :=
  diffs.foldl fmtDiffStep []

/-- One log line emitted by the embedded functions, at info or warning level. -/
inductive LogLine (σ : Type) : Type
  | info (s : σ)
  | warn (s : σ)
deriving DecidableEq, Repr

/-- The `logRoutes` function of main.go.  `dm` is the external diff library's
`DiffMain` applied to the previous and new merged text.  Format `"delta"`
logs the formatted diff when it is non-empty, `"all"` logs the full new
config, and any other format logs a warning and recurses with the default
format `"delta"` (Go's `%q` is modelled as plain quoting). -/
def logRoutes (dm : GoStr → GoStr → List Diff) (last next format : GoStr) :
    List (LogLine GoStr) :=
  if hd : format = "delta".toList then
    let delta := fmtDiff (dm last next)
    if delta = [] then [] else [.info ("Config updates\n".toList ++ delta)]
  else if ha : format = "all".toList then
    [.info ("Updated config to\n".toList ++ next)]
  else
    .warn ("Invalid route format \"".toList ++ format ++ "\". Defaulting to \"delta\"".toList)
      :: logRoutes dm last next "delta".toList
termination_by (if format = "delta".toList then 0 else 1)
decreasing_by
  simp_all

/-- State of the `watchBackend` loop (main.go): the previously applied merged
text `last`, the pending pair `svccfg`/`mancfg` (initially empty strings), and
the Table Store's current value (`route.GetTable`/`route.SetTable`), with the
table type `T` abstract since the `route` package is external. -/
structure WatchState (T : Type) : Type where
  last : String
  svccfg : String
  mancfg : String
  table : T
deriving DecidableEq, Repr

/-- One wake of the `select` in `watchBackend`: a value arrives on the
service-config channel or on the manual-config channel. -/
inductive WatchEvent : Type
  | svc (s : String)
  | man (s : String)
deriving DecidableEq, Repr

/-- What one iteration of `watchBackend` did: skip because the merged text is
unchanged (`continue` after `next == last`), skip after a parse error
(`continue` after the `route.NewTable` warning), or publish a new table
(`route.SetTable` followed by `logRoutes(last, next, ...)`). -/
inductive WatchOutcome : Type
  | noop
  | parseFailed (e : String)
  | published (old new : String)
deriving DecidableEq, Repr

/-- Effect of the `select` statement: record the arriving value into the
corresponding half of the pending pair, leaving the other half unchanged. -/
def applyEvent {T : Type} (st : WatchState T) (ev : WatchEvent) : WatchState T :=
  match ev with
  | .svc s => { st with svccfg := s }
  | .man s => { st with mancfg := s }

/-- The merged text `next := svccfg + "\n" + mancfg` computed on each wake
(manual config is concatenated after service config; order matters). -/
def mergedOf {T : Type} (st : WatchState T) : String :=
  st.svccfg ++ "\n" ++ st.mancfg

/-- One iteration of the `for`/`select` loop in `watchBackend`.  `newTable` is
the external `route.NewTable` parser.  After recording the arriving value,
the merged text is compared byte-for-byte with `last`; when unchanged the
iteration is a no-op, when the parse fails the table and `last` are left
untouched, and on success the new table is published and `last` becomes the
merged text. -/
def watchStep {T : Type} (newTable : String → Except String T)
    (st0 : WatchState T) (ev : WatchEvent) : WatchState T × WatchOutcome :=
  if mergedOf (applyEvent st0 ev) = st0.last then (applyEvent st0 ev, .noop)
  else
    match newTable (mergedOf (applyEvent st0 ev)) with
    | .error e => (applyEvent st0 ev, .parseFailed e)
    | .ok t =>
      ({ applyEvent st0 ev with table := t, last := mergedOf (applyEvent st0 ev) },
        .published st0.last (mergedOf (applyEvent st0 ev)))

/-- Initial state of `watchBackend`: `last`, `svccfg` and `mancfg` are Go
zero-valued strings; `t0` is the Table Store's value before the first publish. -/
def watchInit {T : Type} (t0 : T) : WatchState T :=
  { last := "", svccfg := "", mancfg := "", table := t0 }

/-- Result of the `initBackend` registration loop (main.go): return after a
successful attempt, `exit.Fatal` on an unknown backend name, `exit.Fatal` on
a deadline overrun, `exit.Exit(1)` when shutting down after the retry sleep,
or (model artifact) running out of fuel while still retrying. -/
inductive InitResult : Type
  | registered (attempt : Nat)
  | fatalUnknownBackend
  | fatalTimeout
  | exitShutdown
  | outOfFuel
deriving DecidableEq, Repr

/-- The retry loop of `initBackend` (main.go), indexed by the attempt number
`k` and bounded by `fuel`.  `attemptErr k` is the combined error of backend
creation (`file`/`static`/`consul` `NewBackend`) followed by `Register()` on
attempt `k` (`none` means both succeeded); `pastDeadline k` is
`time.Now().After(deadline)` at attempt `k`'s check; `shuttingDown k` is
`exit.ShuttingDown()` after attempt `k`'s retry sleep.  An unknown backend
name hits the `default` case of the switch and is fatal at once. -/
def initBackendRun (backend : String) (attemptErr : Nat → Option String)
    (pastDeadline shuttingDown : Nat → Bool) : Nat → Nat → InitResult
  | _, 0 => .outOfFuel
  | k, fuel + 1 =>
    if backend = "file" ∨ backend = "static" ∨ backend = "consul" then
      match attemptErr k with
      | none => .registered k
      | some _ =>
        if pastDeadline k then .fatalTimeout
        else if shuttingDown k then .exitShutdown
        else initBackendRun backend attemptErr pastDeadline shuttingDown (k + 1) fuel
    else .fatalUnknownBackend

/-- The `Lookup` closure built in `newHTTPProxy` (main.go): `tableLookup`
stands for `route.GetTable().Lookup(r, trace, pick, match)` on the current
table; when it yields no target a "No route" warning is logged and `nil` is
returned to the caller. -/
def httpLookup {Req Target : Type} (tableLookup : Req → Option Target)
    (reqDescr : Req → String) (r : Req) : Option Target × List (LogLine String) :=
  match tableLookup r with
  | none => (none, [.warn ("No route for " ++ reqDescr r)])
  | some t => (some t, [])

/-- The `Lookup` closure built in `newTCPSNIProxy` (main.go): `lookupHost`
stands for `route.GetTable().LookupHost(serverName, pick)`; when it yields no
target a "No route" warning is logged and `nil` is returned to the caller. -/
def tcpLookup {Target : Type} (lookupHost : String → Option Target)
    (serverName : String) : Option Target × List (LogLine String) :=
  match lookupHost serverName with
  | none => (none, [.warn ("No route for " ++ serverName)])
  | some t => (some t, [])

/-- Lookup of a strategy name in a name-keyed list (the shape of the external
`route.Picker` / `route.Matcher` maps indexed in `newHTTPProxy`). -/
def lookupName {γ : Type} (m : List (String × γ)) (name : String) : Option γ :=
  (m.find? (fun x => x.1 == name)).map (·.2)

/-- Outcome of resolving the configured strategy names at startup. -/
inductive StartupOutcome (γ : Type) : Type
  | serving (impl : γ)
  | fatalConfig
deriving DecidableEq, Repr

/-- Modelled from the spec: the Strategy Registry contract — both strategy
names are resolved once at startup against the name-keyed picker and matcher
maps (`route.Picker[cfg.Proxy.Strategy]`, `route.Matcher[cfg.Proxy.Matcher]`
in `newHTTPProxy`), and an unknown name is a fatal configuration error rather
than a runtime fallback.  The map contents and the fatal check live in the
external `route`/`config` packages, which are not part of `src/`. -/
def resolveStrategies {α β : Type} (pickers : List (String × α))
    (matchers : List (String × β)) (sName mName : String) : StartupOutcome (α × β) :=
  match lookupName pickers sName, lookupName matchers mName with
  | some p, some m => .serving (p, m)
  | _, _ => .fatalConfig

theorem applyEvent_last {T : Type} (st : WatchState T) (ev : WatchEvent) :
    (applyEvent st ev).last = st.last := by
  cases ev <;> rfl

theorem applyEvent_table {T : Type} (st : WatchState T) (ev : WatchEvent) :
    (applyEvent st ev).table = st.table := by
  cases ev <;> rfl

/-- C1: for every merged config text for which `route.NewTable` returns an
error, the reconciliation loop does not call `route.SetTable` — the Table
Store value is identical before and after the failed update attempt — and the
iteration ends as a non-publishing `continue` (the no-op or the logged parse
warning), never blanking the routing table. -/
theorem watch_parse_error_preserves_table_c1 {T : Type}
    (nt : String → Except String T) (st : WatchState T) (ev : WatchEvent) (e : String)
    (herr : nt (mergedOf (applyEvent st ev)) = .error e) :
    (watchStep nt st ev).1.table = st.table ∧
      ((watchStep nt st ev).2 = .noop ∨ (watchStep nt st ev).2 = .parseFailed e) := by
  by_cases h : mergedOf (applyEvent st ev) = st.last
  · simp [watchStep, h, applyEvent_table]
  · simp [watchStep, h, herr, applyEvent_table]

theorem watch_parse_error_preserves_table_c1_w :
    (watchStep (fun _ => (Except.error "bad" : Except String Unit)) (watchInit ()) (.svc "x")).1.table
        = (watchInit ()).table ∧
      ((watchStep (fun _ => (Except.error "bad" : Except String Unit)) (watchInit ()) (.svc "x")).2 = .noop ∨
        (watchStep (fun _ => (Except.error "bad" : Except String Unit)) (watchInit ()) (.svc "x")).2 = .parseFailed "bad") :=
  watch_parse_error_preserves_table_c1 (fun _ => .error "bad") (watchInit ()) (.svc "x") "bad" rfl

/-- C2: on every wake the merged text is exactly the service config, a
newline, then the manual config; a table is built and published only when
this merged text differs byte-for-byte from the previously applied one, and
feeding the loop the same pair again right after a publish is a no-op (one
rebuild, not two). -/
theorem watch_merge_dedup_c2 {T : Type} (nt : String → Except String T)
    (st : WatchState T) (ev : WatchEvent) :
    mergedOf (applyEvent st ev)
        = (applyEvent st ev).svccfg ++ "\n" ++ (applyEvent st ev).mancfg ∧
    (mergedOf (applyEvent st ev) = st.last →
        watchStep nt st ev = (applyEvent st ev, .noop)) ∧
    (∀ old new, (watchStep nt st ev).2 = .published old new →
        old = st.last ∧ new = mergedOf (applyEvent st ev) ∧ new ≠ st.last ∧
        (watchStep nt st ev).1.last = new) ∧
    (∀ old new, (watchStep nt st ev).2 = .published old new →
        watchStep nt (watchStep nt st ev).1 ev = ((watchStep nt st ev).1, .noop)) := by
  refine ⟨rfl, fun h => by simp [watchStep, h], ?_, ?_⟩
  · intro old new hp
    by_cases h : mergedOf (applyEvent st ev) = st.last
    · simp [watchStep, h] at hp
    · cases hnt : nt (mergedOf (applyEvent st ev)) with
      | error e => simp [watchStep, h, hnt] at hp
      | ok t =>
        simp only [watchStep, if_neg h, hnt] at hp ⊢
        obtain ⟨ho, hn⟩ := (WatchOutcome.published.injEq _ _ _ _).mp hp
        exact ⟨ho.symm, hn.symm, hn ▸ h, hn.symm ▸ rfl⟩
  · intro old new hp
    by_cases h : mergedOf (applyEvent st ev) = st.last
    · simp [watchStep, h] at hp
    · cases hnt : nt (mergedOf (applyEvent st ev)) with
      | error e => simp [watchStep, h, hnt] at hp
      | ok t =>
        cases ev <;>
          simp only [watchStep, applyEvent, mergedOf] at h hnt ⊢ <;>
          simp [if_neg h, hnt]

theorem watch_merge_dedup_c2_w :
    watchStep (fun s => (Except.ok s : Except String String))
        (watchStep (fun s => (Except.ok s : Except String String)) (watchInit "t0") (.svc "x")).1 (.svc "x")
      = ((watchStep (fun s => (Except.ok s : Except String String)) (watchInit "t0") (.svc "x")).1, .noop) :=
  (watch_merge_dedup_c2 (fun s => .ok s) (watchInit "t0") (.svc "x")).2.2.2 "" "x\n" (by decide)

/-- C4: a wake on one watch channel records the arriving value only into that
channel's half of the pending pair; the other half keeps its last value
(initially the empty string) and is still used in the next merged text. -/
theorem watch_pending_pair_c4 {T : Type} (st : WatchState T) (s m : String) (t0 : T) :
    (applyEvent st (.svc s)).svccfg = s ∧ (applyEvent st (.svc s)).mancfg = st.mancfg ∧
    (applyEvent st (.man m)).mancfg = m ∧ (applyEvent st (.man m)).svccfg = st.svccfg ∧
    mergedOf (applyEvent st (.svc s)) = s ++ "\n" ++ st.mancfg ∧
    mergedOf (applyEvent st (.man m)) = st.svccfg ++ "\n" ++ m ∧
    (watchInit t0).svccfg = "" ∧ (watchInit t0).mancfg = "" :=
  ⟨rfl, rfl, rfl, rfl, rfl, rfl, rfl, rfl⟩

/-- C9: `last` is updated only by a successful parse and publish, so after a
parse failure the loop state keeps the old `last` (and table) and the very
same merged text is parsed again — and fails again — on the next wake with
the same pending pair; the byte-identity no-op check never suppresses the
retry of a configuration that was never applied. -/
theorem watch_retry_after_parse_failure_c9 {T : Type}
    (nt : String → Except String T) (st : WatchState T) (ev : WatchEvent) :
    (∀ e, (watchStep nt st ev).2 = .parseFailed e →
        (watchStep nt st ev).1.last = st.last ∧
        (watchStep nt st ev).1.table = st.table ∧
        watchStep nt (watchStep nt st ev).1 ev = ((watchStep nt st ev).1, .parseFailed e)) ∧
    ((watchStep nt st ev).1.last ≠ st.last →
        (watchStep nt st ev).2 = .published st.last (mergedOf (applyEvent st ev))) := by
  constructor
  · intro e hp
    by_cases h : mergedOf (applyEvent st ev) = st.last
    · simp [watchStep, h] at hp
    · cases hnt : nt (mergedOf (applyEvent st ev)) with
      | error e2 =>
        simp only [watchStep, if_neg h, hnt] at hp ⊢
        obtain rfl : e2 = e := (WatchOutcome.parseFailed.injEq _ _).mp hp
        refine ⟨applyEvent_last st ev, applyEvent_table st ev, ?_⟩
        cases ev <;>
          simp only [applyEvent, mergedOf] at h hnt ⊢ <;>
          simp [watchStep, applyEvent, mergedOf, if_neg h, hnt]
      | ok t => simp [watchStep, h, hnt] at hp
  · intro hne
    by_cases h : mergedOf (applyEvent st ev) = st.last
    · simp [watchStep, h, applyEvent_last st ev] at hne
    · cases hnt : nt (mergedOf (applyEvent st ev)) with
      | error e2 => simp [watchStep, h, hnt, applyEvent_last st ev] at hne
      | ok t => simp [watchStep, h, hnt]

theorem watch_retry_after_parse_failure_c9_w :
    (watchStep (fun _ => (Except.error "bad" : Except String Unit)) (watchInit ()) (.svc "x")).1.last
        = (watchInit ()).last ∧
    (watchStep (fun _ => (Except.error "bad" : Except String Unit)) (watchInit ()) (.svc "x")).1.table
        = (watchInit ()).table ∧
    watchStep (fun _ => (Except.error "bad" : Except String Unit))
        (watchStep (fun _ => (Except.error "bad" : Except String Unit)) (watchInit ()) (.svc "x")).1 (.svc "x")
      = ((watchStep (fun _ => (Except.error "bad" : Except String Unit)) (watchInit ()) (.svc "x")).1,
          .parseFailed "bad") :=
  (watch_retry_after_parse_failure_c9 (fun _ => .error "bad") (watchInit ()) (.svc "x")).1 "bad" (by decide)

/-- C7: a failed backend creation or registration is retried after the fixed
sleep, and when failures persist and the deadline check trips the loop ends
in the fatal timeout rather than retrying forever; a run whose attempt
succeeds returns at once with no further retries. -/
theorem initBackend_retry_deadline_c7 (backend : String)
    (attA attB : Nat → Option String) (pd sh : Nat → Bool) (k d kk fuel : Nat)
    (hknown : backend = "file" ∨ backend = "static" ∨ backend = "consul")
    (hfail : ∀ j, attA j ≠ none)
    (hsh : ∀ j, sh j = false)
    (hdl : pd (k + d) = true)
    (hok : attB kk = none) :
    initBackendRun backend attA pd sh k (d + 1) = .fatalTimeout ∧
    initBackendRun backend attB pd sh kk (fuel + 1) = .registered kk := by
  constructor
  · induction d generalizing k with
    | zero =>
      unfold initBackendRun
      rw [if_pos hknown]
      cases hA : attA k with
      | none => exact absurd hA (hfail k)
      | some e => simp [Nat.add_zero] at hdl; simp [hdl]
    | succ d ih =>
      unfold initBackendRun
      rw [if_pos hknown]
      cases hA : attA k with
      | none => exact absurd hA (hfail k)
      | some e =>
        by_cases hp : pd k = true
        · simp [hp]
        · have hp2 : pd k = false := by revert hp; cases pd k <;> simp
          simp only [hp2, hsh k, Bool.false_eq_true, if_false]
          exact ih (k + 1) (by rw [Nat.add_right_comm]; exact hdl)
  · unfold initBackendRun
    rw [if_pos hknown, hok]

theorem initBackend_retry_deadline_c7_w :
    initBackendRun "file" (fun _ => some "boom") (fun j => decide (2 ≤ j)) (fun _ => false) 0 3
        = .fatalTimeout ∧
    initBackendRun "file" (fun _ => none) (fun j => decide (2 ≤ j)) (fun _ => false) 0 1
        = .registered 0 :=
  initBackend_retry_deadline_c7 "file" (fun _ => some "boom") (fun _ => none)
    (fun j => decide (2 ≤ j)) (fun _ => false) 0 2 0 0 (Or.inl rfl)
    (fun _ h => Option.noConfusion h) (fun _ => rfl) (by decide) rfl

/-- C10: when the shutdown flag is observed after the retry sleep, the next
iteration is never attempted — the loop ends in `exit.Exit(1)` instead of a
further backend creation or registration. -/
theorem initBackend_shutdown_exit_c10 (backend : String) (att : Nat → Option String)
    (pd sh : Nat → Bool) (k fuel : Nat) (e : String)
    (hknown : backend = "file" ∨ backend = "static" ∨ backend = "consul")
    (hfail : att k = some e) (hdl : pd k = false) (hsh : sh k = true) :
    initBackendRun backend att pd sh k (fuel + 1) = .exitShutdown := by
  unfold initBackendRun
  rw [if_pos hknown]
  simp [hfail, hdl, hsh]

theorem initBackend_shutdown_exit_c10_w :
    initBackendRun "file" (fun _ => some "boom") (fun _ => false) (fun _ => true) 0 5
        = .exitShutdown :=
  initBackend_shutdown_exit_c10 "file" (fun _ => some "boom") (fun _ => false)
    (fun _ => true) 0 4 "boom" (Or.inl rfl) rfl rfl rfl

/-- C3: an unknown registry backend name hits the `default` case of the switch
in `initBackend` and is fatal at startup, and (modelled from the spec, since
the strategy maps live in the external `route` package) an unknown picker or
matcher name makes startup resolution a fatal configuration error rather
than a runtime fallback. -/
theorem startup_unknown_name_fatal_c3 {α β : Type} (backend : String)
    (att : Nat → Option String) (pd sh : Nat → Bool) (k fuel : Nat)
    (pickers : List (String × α)) (matchers : List (String × β)) (sName mName : String)
    (hb : ¬(backend = "file" ∨ backend = "static" ∨ backend = "consul"))
    (hs : (∀ p ∈ pickers, p.1 ≠ sName) ∨ (∀ q ∈ matchers, q.1 ≠ mName)) :
    initBackendRun backend att pd sh k (fuel + 1) = .fatalUnknownBackend ∧
    resolveStrategies pickers matchers sName mName = .fatalConfig := by
  constructor
  · unfold initBackendRun
    rw [if_neg hb]
  · cases hs with
    | inl h =>
      have hnone : lookupName pickers sName = none := by
        unfold lookupName
        rw [List.find?_eq_none.mpr (fun x hx => by simp [h x hx])]
        rfl
      simp [resolveStrategies, hnone]
    | inr h =>
      have hnone : lookupName matchers mName = none := by
        unfold lookupName
        rw [List.find?_eq_none.mpr (fun x hx => by simp [h x hx])]
        rfl
      cases lookupName pickers sName <;> simp [resolveStrategies, hnone]

theorem startup_unknown_name_fatal_c3_w :
    initBackendRun "zookeeper" (fun _ => none) (fun _ => false) (fun _ => false) 0 1
        = .fatalUnknownBackend ∧
    resolveStrategies [("rnd", 0)] [("prefix", 0)] "bogus" "prefix" = .fatalConfig :=
  startup_unknown_name_fatal_c3 "zookeeper" (fun _ => none) (fun _ => false)
    (fun _ => false) 0 0 [("rnd", 0)] [("prefix", 0)] "bogus" "prefix"
    (by decide) (Or.inl (by decide))

/-- C8: when the table lookup finds no target for an HTTP request or an SNI
server name, the dispatcher's lookup logs a "No route" warning and returns
none to the caller — a normal, non-fatal outcome whose failure response is
left to the caller. -/
theorem lookup_no_route_c8 {Req Target : Type} (tl : Req → Option Target)
    (descr : Req → String) (r : Req) (hl : String → Option Target) (sn : String)
    (h1 : tl r = none) (h2 : hl sn = none) :
    httpLookup tl descr r = (none, [.warn ("No route for " ++ descr r)]) ∧
    tcpLookup hl sn = (none, [.warn ("No route for " ++ sn)]) := by
  rw [httpLookup, tcpLookup, h1, h2]
  exact ⟨rfl, rfl⟩

theorem lookup_no_route_c8_w :
    httpLookup (fun _ => (none : Option Unit)) (fun _ => "example.com/foo") ()
        = (none, [.warn ("No route for " ++ "example.com/foo")]) ∧
    tcpLookup (fun _ => (none : Option Unit)) "sni.example.com"
        = (none, [.warn ("No route for " ++ "sni.example.com")]) :=
  lookup_no_route_c8 (fun _ => none) (fun _ => "example.com/foo") ()
    (fun _ => none) "sni.example.com" rfl rfl

/-- C5: for every pair of texts and every format that is neither "delta" nor
"all", `logRoutes` logs a warning and then produces exactly the output of
`logRoutes` with format "delta" on the same texts — a self-correcting
default, not a fatal error. -/
theorem logRoutes_invalid_format_c5 (dm : GoStr → GoStr → List Diff)
    (last next format : GoStr)
    (h1 : format ≠ "delta".toList) (h2 : format ≠ "all".toList) :
    logRoutes dm last next format =
      .warn ("Invalid route format \"".toList ++ format
          ++ "\". Defaulting to \"delta\"".toList)
        :: logRoutes dm last next "delta".toList := by
  conv_lhs => rw [logRoutes]
  rw [dif_neg h1, dif_neg h2]

theorem logRoutes_invalid_format_c5_w :
    logRoutes (fun _ _ => []) "a".toList "b".toList "xyz".toList =
      .warn ("Invalid route format \"".toList ++ "xyz".toList
          ++ "\". Defaulting to \"delta\"".toList)
        :: logRoutes (fun _ _ => []) "a".toList "b".toList "delta".toList :=
  logRoutes_invalid_format_c5 (fun _ _ => []) "a".toList "b".toList "xyz".toList
    (by decide) (by decide)

/-- Recognizer for a single line of the delta output: it must start with
`"- "` or `"+ "`. -/
def goodLineB (l : GoStr) : Bool :=
  (l.take 2 == ['-', ' ']) || (l.take 2 == ['+', ' '])

mutual

/-- Recognizer state "inside a line": anything is allowed until the next
newline, after which a fresh line must begin with a diff marker. -/
def goodTail : GoStr → Bool
  | [] => true
  | c :: rest => if c = '\n' then goodHead rest else goodTail rest

/-- Recognizer state "at the start of a line": the line must begin with
`"- "` or `"+ "` and then continue as a line tail. -/
def goodHead : GoStr → Bool
  | c1 :: c2 :: rest => ((c1 == '-' || c1 == '+') && c2 == ' ') && goodTail rest
  | _ => false

end

/-- A diff fragment contributes to the delta output iff its text is non-blank
after trimming and its kind is not an equality. -/
def contributes (d : Diff) : Bool :=
  !(goTrimSpace d.text == []) && !(d.kind == DiffKind.equal)

theorem splitLines_ne_nil (s : GoStr) : splitLines s ≠ [] := by
  match s with
  | [] => simp [splitLines]
  | c :: rest =>
    simp only [splitLines]
    by_cases h : c = '\n'
    · simp [h]
    · cases hs : splitLines rest <;> simp [h, hs]

theorem goodTail_of_goodHead (s : GoStr) (h : goodHead s = true) : goodTail s = true := by
  match s with
  | [] => simp [goodHead] at h
  | [c] => simp [goodHead] at h
  | c1 :: c2 :: rest =>
    simp only [goodHead, Bool.and_eq_true, Bool.or_eq_true, beq_iff_eq] at h
    obtain ⟨⟨h1, h2⟩, h3⟩ := h
    have hc1 : c1 ≠ '\n' := by rcases h1 with h1 | h1 <;> subst h1 <;> decide
    have hc2 : c2 ≠ '\n' := by subst h2; decide
    simp [goodTail, hc1, hc2, h3]

theorem good_append (n : Nat) (a b : GoStr) (hn : a.length ≤ n) (hb : goodHead b = true) :
    (goodTail a = true → goodTail (a ++ b) = true) ∧
    (goodHead a = true → goodHead (a ++ b) = true) := by
  induction n generalizing a with
  | zero =>
    have : a = [] := List.length_eq_zero.mp (Nat.le_zero.mp hn)
    subst this
    exact ⟨fun _ => goodTail_of_goodHead b hb, fun h => by simp [goodHead] at h⟩
  | succ n ih =>
    match a with
    | [] => exact ⟨fun _ => goodTail_of_goodHead b hb, fun h => by simp [goodHead] at h⟩
    | c :: a2 =>
      have ha2 : a2.length ≤ n := by
        simp only [List.length_cons] at hn
        omega
      constructor
      · intro ht
        simp only [goodTail] at ht
        by_cases hc : c = '\n'
        · simp only [List.cons_append, goodTail, hc, if_pos rfl]
          simp only [hc, if_pos rfl] at ht
          exact (ih a2 ha2).2 ht
        · simp only [List.cons_append, goodTail, hc, if_neg hc]
          simp only [hc, if_neg hc] at ht
          exact (ih a2 ha2).1 ht
      · intro hh
        match a2 with
        | [] => simp [goodHead] at hh
        | c2 :: a3 =>
          simp only [goodHead, Bool.and_eq_true] at hh
          obtain ⟨h12, h3⟩ := hh
          have ha3 : a3.length ≤ n := by
            simp only [List.length_cons] at hn
            omega
          simp only [List.cons_append, goodHead, Bool.and_eq_true]
          exact ⟨h12, (ih a3 ha3).1 h3⟩

theorem goodHead_append (a b : GoStr) (ha : goodHead a = true) (hb : goodHead b = true) :
    goodHead (a ++ b) = true :=
  (good_append a.length a b le_rfl hb).2 ha

theorem goodTail_replChar (c0 : Char) (hc : c0 = '-' ∨ c0 = '+') (t : GoStr) :
    goodTail (goReplaceChar '\n' ['\n', c0, ' '] t) = true := by
  induction t with
  | nil => rfl
  | cons c rest ih =>
    by_cases h : c = '\n'
    · rw [goReplaceChar, if_pos h]
      simp only [List.cons_append, List.nil_append]
      rw [goodTail, if_pos rfl, goodHead, ih]
      rcases hc with hc | hc <;> subst hc <;> rfl
    · rw [goReplaceChar, if_neg h, List.singleton_append, goodTail, if_neg h]
      exact ih

theorem goodHead_piece (c0 : Char) (hc : c0 = '-' ∨ c0 = '+') (t : GoStr) :
    goodHead (c0 :: ' ' :: goReplaceChar '\n' ['\n', c0, ' '] t) = true := by
  rw [goodHead, goodTail_replChar c0 hc t]
  rcases hc with hc | hc <;> subst hc <;> rfl

theorem fmtDiffStep_good (b : GoStr) (d : Diff)
    (hb : b = [] ∨ goodHead b = true) :
    fmtDiffStep b d = [] ∨ goodHead (fmtDiffStep b d) = true := by
  unfold fmtDiffStep
  by_cases ht : goTrimSpace d.text = []
  · simp [ht, hb]
  · simp only [if_neg ht]
    cases hk : d.kind with
    | delete =>
      right
      rcases hb with hb | hb
      · subst hb
        simpa using goodHead_piece '-' (Or.inl rfl) (goTrimSpace d.text)
      · exact goodHead_append _ _ hb (goodHead_piece '-' (Or.inl rfl) (goTrimSpace d.text))
    | insert =>
      right
      rcases hb with hb | hb
      · subst hb
        simpa using goodHead_piece '+' (Or.inr rfl) (goTrimSpace d.text)
      · exact goodHead_append _ _ hb (goodHead_piece '+' (Or.inr rfl) (goTrimSpace d.text))
    | equal => exact hb

theorem fmtDiff_foldl_good (diffs : List Diff) (b : GoStr)
    (hb : b = [] ∨ goodHead b = true) :
    diffs.foldl fmtDiffStep b = [] ∨ goodHead (diffs.foldl fmtDiffStep b) = true := by
  induction diffs generalizing b with
  | nil => simpa using hb
  | cons d rest ih => exact ih (fmtDiffStep b d) (fmtDiffStep_good b d hb)

theorem fmtDiffStep_skip (b : GoStr) (d : Diff) (h : contributes d = false) :
    fmtDiffStep b d = b := by
  unfold contributes at h
  unfold fmtDiffStep
  by_cases ht : goTrimSpace d.text = []
  · simp [ht]
  · simp only [if_neg ht]
    simp only [Bool.and_eq_false_iff, Bool.not_eq_false', beq_iff_eq] at h
    rcases h with h | h
    · exact absurd h ht
    · simp [h]

theorem fmtDiff_foldl_filter (diffs : List Diff) (b : GoStr) :
    diffs.foldl fmtDiffStep b = (diffs.filter contributes).foldl fmtDiffStep b := by
  induction diffs generalizing b with
  | nil => rfl
  | cons d rest ih =>
    cases hc : contributes d with
    | true => simp [List.filter, hc, List.foldl, ih]
    | false => simp [List.filter, hc, List.foldl, ih, fmtDiffStep_skip b d hc]

theorem good_lines (n : Nat) (s : GoStr) (hn : s.length ≤ n) :
    (goodTail s = true → ((splitLines s).tail).all goodLineB = true) ∧
    (goodHead s = true → (splitLines s).all goodLineB = true) := by
  induction n generalizing s with
  | zero =>
    have : s = [] := List.length_eq_zero.mp (Nat.le_zero.mp hn)
    subst this
    exact ⟨fun _ => by simp [splitLines], fun h => by simp [goodHead] at h⟩
  | succ n ih =>
    match s with
    | [] => exact ⟨fun _ => by simp [splitLines], fun h => by simp [goodHead] at h⟩
    | c :: rest =>
      have hrest : rest.length ≤ n := by
        simp only [List.length_cons] at hn
        omega
      constructor
      · intro ht
        simp only [goodTail] at ht
        by_cases hc : c = '\n'
        · simp only [hc, if_pos rfl] at ht
          simp only [splitLines, hc, if_pos rfl, List.tail_cons]
          exact (ih rest hrest).2 ht
        · simp only [hc, if_neg hc] at ht
          simp only [splitLines, if_neg hc]
          cases hs : splitLines rest with
          | nil => exact absurd hs (splitLines_ne_nil rest)
          | cons l ls =>
            have := (ih rest hrest).1 ht
            rw [hs] at this
            simpa using this
      · intro hh
        match c, rest with
        | c, [] => simp [goodHead] at hh
        | c1, c2 :: rest2 =>
          simp only [goodHead, Bool.and_eq_true, Bool.or_eq_true, beq_iff_eq] at hh
          obtain ⟨⟨h1, h2⟩, h3⟩ := hh
          have hc1 : c1 ≠ '\n' := by rcases h1 with h1 | h1 <;> subst h1 <;> decide
          have hc2 : c2 ≠ '\n' := by subst h2; decide
          have hrest2 : rest2.length ≤ n := by
            simp only [List.length_cons] at hn
            omega
          have htail := (ih rest2 hrest2).1 h3
          cases hs : splitLines rest2 with
          | nil => exact absurd hs (splitLines_ne_nil rest2)
          | cons l ls =>
            rw [hs] at htail
            simp only [List.tail_cons] at htail
            simp only [splitLines, if_neg hc1, if_neg hc2, hs]
            simp only [List.all_cons, Bool.and_eq_true]
            refine ⟨?_, by simpa using htail⟩
            subst h2
            rcases h1 with h1 | h1 <;> subst h1 <;> simp [goodLineB]

/-- C6: the "delta" output contains only insertion and deletion material —
every line of it starts with `"- "` or `"+ "`, equal fragments are omitted,
and fragments that are blank after trimming are suppressed — while format
"all" prints the full new merged text. -/
theorem logRoutes_delta_content_c6 (dm : GoStr → GoStr → List Diff) (last next : GoStr) :
    (fmtDiff (dm last next) = [] ∨
        (splitLines (fmtDiff (dm last next))).all goodLineB = true) ∧
    fmtDiff (dm last next) = fmtDiff ((dm last next).filter contributes) ∧
    logRoutes dm last next "delta".toList =
      (if fmtDiff (dm last next) = [] then []
        else [.info ("Config updates\n".toList ++ fmtDiff (dm last next))]) ∧
    logRoutes dm last next "all".toList =
      [.info ("Updated config to\n".toList ++ next)] := by
  refine ⟨?_, ?_, ?_, ?_⟩
  · rcases fmtDiff_foldl_good (dm last next) [] (Or.inl rfl) with h | h
    · exact Or.inl h
    · exact Or.inr ((good_lines (fmtDiff (dm last next)).length _ le_rfl).2 h)
  · exact fmtDiff_foldl_filter (dm last next) []
  · rw [logRoutes, dif_pos rfl]
  · rw [logRoutes, dif_neg (by decide), dif_pos rfl]

end Fabio
